import Mathlib

/-!
Verification development for the Facebook comment scraper
(`src/main.py`, `src/facebook/facebook_client.py`).

The Python code is shallowly embedded: the HTML tree handed over by the
parsing backend is modelled as an inductive `HtmlNode`, the comment records
as the structure `CommentData`, and every scraping / parsing routine as an
executable Lean function translated from the corresponding Python function.
External library primitives (string splitting, attribute lookup, JSON
decoding of `data-ft` blobs) are modelled explicitly next to their uses.
-/

namespace Scrapper

/-! ## Python string primitives

The scraper manipulates Python `str` values with `strip`, `split`,
`in`-containment, `lower`, `replace` and slicing.  These are modelled on
`List Char` / `String`. -/

/-- Whitespace test used by Python's `str.strip` / `str.split()` (the
ASCII whitespace classes the scraper's inputs use). -/
def pyWS (c : Char) : Bool :=
  c = ' ' ∨ c = '\t' ∨ c = '\n' ∨ c = '\r' ∨ c = '\x0b' ∨ c = '\x0c'

/-- Drop trailing characters satisfying `p`. -/
def dropTrail (p : Char → Bool) (l : List Char) : List Char :=
  (l.reverse.dropWhile p).reverse

/-- Python `str.strip()` on a character list. -/
def pyStripL (l : List Char) : List Char :=
  dropTrail pyWS (l.dropWhile pyWS)

/-- Python `str.strip()`. -/
def pyStrip (s : String) : String :=
  ⟨pyStripL s.data⟩

/-- Python `needle in hay` substring containment. -/
def strContains (hay needle : String) : Bool :=
  decide (needle.data <:+: hay.data)

/-- Python `str.lower()` (ASCII case folding, enough for the scraper's
`re.I` patterns over latin markup tokens). -/
def strLower (s : String) : String :=
  ⟨s.data.map Char.toLower⟩

/-- Case-insensitive substring containment, modelling `re.compile(p, re.I)`
searched for a literal word. -/
def strContainsCI (hay needle : String) : Bool :=
  strContains (strLower hay) (strLower needle)

/-- Python `s[:n]` on a string (first `n` characters). -/
def strTake (s : String) (n : Nat) : String :=
  ⟨s.data.take n⟩

/-- Python `str.split(None, 1)`: strip leading whitespace, cut at the first
whitespace run; the remainder keeps everything after that run. -/
def pySplitNone1 (s : String) : List String :=
  let l := s.data.dropWhile pyWS
  if l.isEmpty then []
  else
    let tok := l.takeWhile (fun c => ¬ pyWS c)
    let rest := (l.dropWhile (fun c => ¬ pyWS c)).dropWhile pyWS
    if rest.isEmpty then [⟨tok⟩] else [⟨tok⟩, ⟨rest⟩]

/-- First occurrence of `sep` in a list: the part before it and the part
after it. -/
def breakOnL (sep : List Char) : List Char → Option (List Char × List Char)
  | [] => none
  | c :: rest =>
    if sep.isPrefixOf (c :: rest) then some ([], (c :: rest).drop sep.length)
    else
      match breakOnL sep rest with
      | some (b, a) => some (c :: b, a)
      | none => none

/-- Left-to-right, non-overlapping split at `sep`; `fuel` bounds the number
of cuts (any fuel above the input length is exact for a non-empty
separator). -/
def splitOnGo (sep : List Char) : Nat → List Char → List (List Char)
  | 0, l => [l]
  | f + 1, l =>
    match breakOnL sep l with
    | none => [l]
    | some (b, a) => b :: splitOnGo sep f a

/-- Python `str.split(sep)` for a non-empty separator. -/
def pySplit (s sep : String) : List String :=
  (splitOnGo sep.data (s.data.length + 1) s.data).map (fun l => ⟨l⟩)

/-- Python `str.replace(old, new)`: replace every non-overlapping,
left-to-right occurrence. -/
def pyReplace (s old new : String) : String :=
  ⟨((splitOnGo old.data (s.data.length + 1) s.data).intersperse new.data).flatten⟩

/-- Python `str.startswith(pre)`. -/
def pyStartsWith (s pre : String) : Bool :=
  pre.data.isPrefixOf s.data

/-- Python whitespace tokenisation of an HTML `class` attribute value. -/
def wsSplitGo : Nat → List Char → List (List Char)
  | 0, _ => []
  | _ + 1, [] => []
  | f + 1, c :: rest =>
    if pyWS c then wsSplitGo f rest
    else ((c :: rest).takeWhile (fun d => ¬ pyWS d)) :: wsSplitGo f (rest.dropWhile (fun d => ¬ pyWS d))

/-- Whitespace-separated tokens of an HTML `class` attribute value
(`fuel` above the input length is exact). -/
def classTokens (s : String) : List String :=
  (wsSplitGo (s.data.length + 1) s.data).map (fun l => ⟨l⟩)

/-- First maximal run of decimal digits in a character list, modelling
the `(\d+)` regex search. -/
def firstDigitRun : List Char → Option (List Char)
  | [] => none
  | c :: rest =>
    if c.isDigit then some (c :: rest.takeWhile Char.isDigit)
    else firstDigitRun rest

/-- Python `int` on a run of decimal digits. -/
def natOfDigits (l : List Char) : Nat :=
  l.foldl (fun a c => a * 10 + (c.toNat - 48)) 0

/-! ## HTML tree model

`BeautifulSoup(html_content, html.parser)` is a black box producing a
tree of tags and strings; the tree itself is the model's input.  Attribute
values are strings (the scraper only reads `id`, `href`, `title`, `role`,
`class`, `data-*` attributes, all flat strings). -/

inductive HtmlNode where
  | elt (tag : String) (attrs : List (String × String)) (children : List HtmlNode)
  | txt (s : String)
deriving Repr

/-- Attribute lookup, `element.get(key)`. -/
def getAttr : HtmlNode → String → Option String
  | .elt _ attrs _, k => attrs.lookup k
  | .txt _, _ => none

/-- Attribute lookup with default, `element.get(key, d)`. -/
def getAttrD (n : HtmlNode) (k d : String) : String :=
  (getAttr n k).getD d

def tagOf : HtmlNode → String
  | .elt t _ _ => t
  | .txt _ => ""

def isElt : HtmlNode → Bool
  | .elt _ _ _ => true
  | .txt _ => false

mutual
/-- Number of nodes of a tree (used as recursion fuel for the reply
extraction, which recurses into descendants). -/
def nodeSize : HtmlNode → Nat
  | .txt _ => 1
  | .elt _ _ cs => 1 + nodeSizeList cs

def nodeSizeList : List HtmlNode → Nat
  | [] => 0
  | n :: ns => nodeSize n + nodeSizeList ns
end

mutual
/-- Document-order (pre-order) listing of a node and all its descendants,
the order in which BeautifulSoup's `find_all` reports matches. -/
def preorder : HtmlNode → List HtmlNode
  | .txt s => [.txt s]
  | .elt t a cs => .elt t a cs :: preorderList cs

def preorderList : List HtmlNode → List HtmlNode
  | [] => []
  | n :: ns => preorder n ++ preorderList ns
end

/-- All nodes of a document (a soup's `find_all` search space). -/
def docNodes (doc : List HtmlNode) : List HtmlNode :=
  preorderList doc

/-- Descendants of an element, excluding the element itself (the search
space of `element.find_all` / `element.select_one`). -/
def descendants : HtmlNode → List HtmlNode
  | .elt _ _ cs => preorderList cs
  | .txt _ => []

mutual
/-- Document-order listing of a node's subtree where every node is paired
with its ancestor chain (nearest ancestor first), used for CSS descendant
combinators and for the text-node parent checks. -/
def withAnc : HtmlNode → List HtmlNode → List (HtmlNode × List HtmlNode)
  | .txt s, anc => [(.txt s, anc)]
  | .elt t a cs, anc => (.elt t a cs, anc) :: withAncList cs (.elt t a cs :: anc)

def withAncList : List HtmlNode → List HtmlNode → List (HtmlNode × List HtmlNode)
  | [], _ => []
  | n :: ns, anc => withAnc n anc ++ withAncList ns anc
end

/-- Descendants of an element with ancestor chains, the chain stopping at
(and including) the element itself. -/
def descendantsAnc : HtmlNode → List (HtmlNode × List HtmlNode)
  | .elt t a cs => withAncList cs [.elt t a cs]
  | .txt _ => []

mutual
/-- All strings below a node, document order (`element.find_all(string=True)`
without the parent filter; also the string stream of `get_text`). -/
def textStrings : HtmlNode → List String
  | .txt s => [s]
  | .elt _ _ cs => textStringsList cs

def textStringsList : List HtmlNode → List String
  | [] => []
  | n :: ns => textStrings n ++ textStringsList ns
end

/-- Model of `element.get_text(strip=True)`: the stripped descendant strings joined
without separator. -/
def getTextStrip (n : HtmlNode) : String :=
  String.join ((textStrings n).map pyStrip)

end Scrapper

namespace Scrapper

/-! ## Comment records

`CommentRecord` of the data model; the Python code builds these as dicts
with exactly these keys. -/

structure CommentData where
  text : String
  author : String
  author_id : String
  time : String
  likes : Nat
  comment_id : String
  replies : List CommentData
deriving Repr

/-! ## CSS selector predicates

`element.select_one(sel)` returns the first descendant (document order)
matching `sel`; a selector is modelled as a predicate over the node and its
ancestor chain (for the descendant combinators `strong a`, `h3 a`,
`a abbr`). -/

def Sel := HtmlNode → List HtmlNode → Bool

/-- First descendant of `e` satisfying the selector (`element.select_one`). -/
def selectOne (e : HtmlNode) (sel : Sel) : Option HtmlNode :=
  ((descendantsAnc e).find? (fun p => sel p.1 p.2)).map (fun p => p.1)

def hasClassToken (n : HtmlNode) (tok : String) : Bool :=
  match getAttr n "class" with
  | some v => (classTokens v).contains tok
  | none => false

def attrEq (n : HtmlNode) (k v : String) : Bool :=
  getAttr n k = some v

def attrContains (n : HtmlNode) (k sub : String) : Bool :=
  match getAttr n k with
  | some v => strContains v sub
  | none => false

def ancHasTag (anc : List HtmlNode) (t : String) : Bool :=
  anc.any (fun a => tagOf a = t)

/-- Text selector cascade of `_extract_comment_data` (lines 654-660). -/
def textSelectors : List Sel :=
  [ fun n _ => tagOf n = "div" ∧ attrEq n "data-testid" "comment"
  , fun n _ => hasClassToken n "userContent"
  , fun n _ => attrEq n "data-sigil" "comment-body"
  , fun n _ => hasClassToken n "comment-body"
  , fun n _ => tagOf n = "span" ∧ attrEq n "dir" "auto" ]

/-- Author selector cascade (lines 685-692). -/
def authorSelectors : List Sel :=
  [ fun n _ => tagOf n = "a" ∧ attrEq n "role" "link"
  , fun n anc => tagOf n = "a" ∧ ancHasTag anc "strong"
  , fun n anc => tagOf n = "a" ∧ ancHasTag anc "h3"
  , fun n _ => attrEq n "data-hovercard-prefer-more-content-show" "1"
  , fun n _ => tagOf n = "a" ∧ attrContains n "href" "/user/"
  , fun n _ => tagOf n = "a" ∧ attrContains n "href" "/profile.php" ]

/-- Time selector cascade (lines 713-718). -/
def timeSelectors : List Sel :=
  [ fun n _ => tagOf n = "a" ∧ attrContains n "href" "/comment/"
  , fun n anc => tagOf n = "abbr" ∧ ancHasTag anc "a"
  , fun n _ => (getAttr n "data-tooltip-content").isSome ∧ isElt n
  , fun n _ => tagOf n = "a" ∧ (getAttr n "title").isSome ]

/-- Likes selector cascade (lines 731-735). -/
def likesSelectors : List Sel :=
  [ fun n _ => attrContains n "aria-label" "Like"
  , fun n _ => attrEq n "data-sigil" "reactions-count"
  , fun n _ => hasClassToken n "like-count" ]

end Scrapper


namespace Scrapper

/-! ## The `data-ft` identifier blob

`_extract_comment_data` feeds `data-ft` values that contain
`top_level_post_id` to `json.loads` (when they start with a brace) and
falls back to a regex on decode failure.  `json.loads` is an external
library call; it is modelled here for the shape the code actually reads: a
flat JSON object of string keys and string / integer values.  Inputs
outside that shape report failure, which is the code's regex-fallback
path. -/

def braceOpen : Char := '\x7b'

def braceClose : Char := '\x7d'

def singleQuote : Char := Char.ofNat 39

/-- Characters of a JSON string literal up to the closing quote (escape
sequences are outside the modelled shape). -/
def jsonStrChars : List Char → Option (List Char × List Char)
  | [] => none
  | c :: rest =>
    if c = '"' then some ([], rest)
    else if c = '\\' then none
    else match jsonStrChars rest with
      | some (cs, rem) => some (c :: cs, rem)
      | none => none

/-- A JSON value of the modelled shape: a quoted string or an integer,
rendered to the string Python's `str()` would print for it. -/
def jsonValue : List Char → Option (String × List Char)
  | [] => none
  | c :: rest =>
    if c = '"' then
      match jsonStrChars rest with
      | some (cs, rem) => some (⟨cs⟩, rem)
      | none => none
    else if c = '-' then
      let ds := rest.takeWhile Char.isDigit
      if ds.isEmpty then none
      else some (⟨'-' :: ds⟩, rest.dropWhile Char.isDigit)
    else if c.isDigit then
      let l := c :: rest
      some (⟨l.takeWhile Char.isDigit⟩, l.dropWhile Char.isDigit)
    else none

/-- Key/value pairs of a flat JSON object, starting after the opening
brace.  `fuel` bounds the number of pairs. -/
def jsonPairs : Nat → List Char → Option (List (String × String) × List Char)
  | 0, _ => none
  | f + 1, l =>
    match (l.dropWhile pyWS) with
    | c :: rest =>
      if c = '"' then
        match jsonStrChars rest with
        | some (key, rem) =>
          match rem.dropWhile pyWS with
          | ':' :: rem2 =>
            match jsonValue (rem2.dropWhile pyWS) with
            | some (v, rem3) =>
              match rem3.dropWhile pyWS with
              | ',' :: rem4 =>
                match jsonPairs f rem4 with
                | some (ps, rem5) => some ((⟨key⟩, v) :: ps, rem5)
                | none => none
              | d :: rem4 =>
                if d = braceClose then some ([(⟨key⟩, v)], rem4) else none
              | [] => none
            | none => none
          | _ => none
        | none => none
      else none
    | [] => none

/-- Models `json.loads(s)` on the flat-object shape, returning the
key/value pairs. -/
def jsonLoadsFlat (s : String) : Option (List (String × String)) :=
  match s.data.dropWhile pyWS with
  | c :: rest =>
    if c = braceOpen then
      match rest.dropWhile pyWS with
      | d :: rem =>
        if d = braceClose then
          if (rem.dropWhile pyWS).isEmpty then some [] else none
        else
          match jsonPairs (rest.length + 1) rest with
          | some (ps, rem2) =>
            if (rem2.dropWhile pyWS).isEmpty then some ps else none
          | none => none
      | [] => none
    else none
  | [] => none

/-- Models `json.loads` on the id blob followed by the lookup of
`top_level_post_id` with an empty-string default;
`Except.error` is `json.loads` raising. -/
def jsonTopLevelPostId (s : String) : Except Unit String :=
  match jsonLoadsFlat s with
  | some ps => .ok ((ps.lookup "top_level_post_id").getD "")
  | none => .error ()

/-- One attempt of the tail of the fallback regex (the literal
`top_level_post_id`, an optional quote of either kind, then colon,
whitespace, optional quote and a captured digit run) after the literal and
the optional first quote. -/
def tlpiAfterColon (l : List Char) : Option String :=
  match l.dropWhile pyWS with
  | ':' :: rest =>
    let l4 := rest.dropWhile pyWS
    match l4 with
    | c :: r =>
      if c = '"' ∨ c = singleQuote then
        let ds := r.takeWhile Char.isDigit
        if ds.isEmpty then none else some ⟨ds⟩
      else
        let ds := l4.takeWhile Char.isDigit
        if ds.isEmpty then none else some ⟨ds⟩
    | [] => none
  | _ => none

/-- Match of the fallback regex starting exactly at `l` (after the literal
`top_level_post_id`): optional quote, whitespace, colon, whitespace,
optional quote and a captured digit run, with the regex engine
backtracking over the optional quote. -/
def tlpiTail (l : List Char) : Option String :=
  match l with
  | c :: r =>
    if c = '"' ∨ c = singleQuote then
      match tlpiAfterColon r with
      | some d => some d
      | none => tlpiAfterColon l
    else tlpiAfterColon l
  | [] => tlpiAfterColon l

/-- Leftmost match of the fallback `top_level_post_id` regex search of
line 765, returning the captured digit group. -/
def scanTopLevelPostId : List Char → Option String
  | [] => none
  | c :: rest =>
    if "top_level_post_id".data.isPrefixOf (c :: rest) then
      match tlpiTail ((c :: rest).drop 17) with
      | some d => some d
      | none => scanTopLevelPostId rest
    else scanTopLevelPostId rest

end Scrapper


namespace Scrapper

/-! ## Comment extractor (`_extract_comment_data`, lines 639-785) -/

/-- Text cascade (lines 662-668): each matching selector overwrites the
candidate text; the loop stops at the first non-empty extraction. -/
def textCascade (e : HtmlNode) : List Sel → String → String
  | [], cur => cur
  | s :: rest, cur =>
    match selectOne e s with
    | none => textCascade e rest cur
    | some el =>
      let t := getTextStrip el
      if t ≠ "" then t else textCascade e rest t

/-- Fallback text parts (lines 671-679): stripped descendant strings whose
parent is not a hyperlink, button, script or style element. -/
def fallbackTextParts (e : HtmlNode) : List String :=
  (descendantsAnc e).filterMap (fun p =>
    match p.1 with
    | .txt s =>
      let parentTag :=
        match p.2.head? with
        | some par => tagOf par
        | none => ""
      if parentTag = "a" ∨ parentTag = "button" ∨ parentTag = "script" ∨ parentTag = "style" then
        none
      else
        let t := pyStrip s
        if t ≠ "" then some t else none
    | .elt _ _ _ => none)

/-- The extracted comment text (lines 662-682). -/
def extractText (e : HtmlNode) : String :=
  let t := textCascade e textSelectors ""
  if t = "" then pyStrip (String.intercalate " " (fallbackTextParts e)) else t

/-- Author-id update from an author link's `href` (lines 702-705); keeps
the previous value when neither URL pattern occurs. -/
def authorIdFromHref (href prev : String) : String :=
  if strContains href "/user/" then
    (pySplit ((pySplit ((pySplit href "/user/").getLastD "") "/").headD "") "?").headD ""
  else if strContains href "profile.php?id=" then
    (pySplit ((pySplit href "profile.php?id=").getLastD "") "&").headD ""
  else prev

/-- Author cascade (lines 694-707): each matching selector overwrites the
author text and possibly the author id; stops at the first non-empty
author text. -/
def authorCascade (e : HtmlNode) : List Sel → String → String → String × String
  | [], a, aid => (a, aid)
  | s :: rest, a, aid =>
    match selectOne e s with
    | none => authorCascade e rest a aid
    | some el =>
      let a2 := getTextStrip el
      let aid2 := authorIdFromHref (getAttrD el "href" "") aid
      if a2 ≠ "" then (a2, aid2) else authorCascade e rest a2 aid2

/-- Time cascade (lines 720-726): `title` attribute, else tooltip
attribute, else the element's text; stops at the first non-empty value. -/
def timeCascade (e : HtmlNode) : List Sel → String → String
  | [], cur => cur
  | s :: rest, cur =>
    match selectOne e s with
    | none => timeCascade e rest cur
    | some el =>
      let t0 := getAttrD el "title" ""
      let t1 := if t0 ≠ "" then t0 else getAttrD el "data-tooltip-content" ""
      let t := if t1 ≠ "" then t1 else getTextStrip el
      if t ≠ "" then t else timeCascade e rest t

/-- Likes cascade (lines 737-751): first selector whose element's text
(with `,` and `.` removed) contains a digit run wins; otherwise 0. -/
def likesCascade (e : HtmlNode) : List Sel → Nat
  | [] => 0
  | s :: rest =>
    match selectOne e s with
    | none => likesCascade e rest
    | some el =>
      let lt := pyReplace (pyReplace (getTextStrip el) "," "") "." ""
      match firstDigitRun lt.data with
      | some ds => natOfDigits ds
      | none => likesCascade e rest

/-- Comment id extraction (lines 753-769): the `id` attribute or the
`data-ft` blob; a blob containing `top_level_post_id` is JSON-decoded when
it starts with a brace (regex fallback when decoding fails), and replaced
by the empty string when it does not. -/
def commentIdOf (e : HtmlNode) : String :=
  let idv := getAttrD e "id" ""
  let raw := if idv ≠ "" then idv else getAttrD e "data-ft" ""
  if raw ≠ "" ∧ strContains raw "top_level_post_id" then
    if pyStartsWith raw "\x7b" then
      match jsonTopLevelPostId raw with
      | .ok v => v
      | .error _ =>
        match scanTopLevelPostId raw.data with
        | some d => d
        | none => raw
    else ""
  else raw

/-- Reply containers (line 773): descendant `div`s whose class name
contains `reply` case-insensitively. -/
def findReplyElts (e : HtmlNode) : List HtmlNode :=
  (descendants e).filter (fun n =>
    tagOf n == "div" &&
    match getAttr n "class" with
    | some v => strContainsCI v "reply"
    | none => false)

/-- Model of `_extract_comment_data`: builds the record field by field; the reply
extraction recurses into at most 5 descendant reply containers (`fuel`
bounds the recursion depth; any fuel at least the tree depth gives the
Python behaviour). -/
def extract_comment_data : Nat → HtmlNode → Option CommentData
  | fuel, e =>
    let replies :=
      match fuel with
      | 0 => []
      | f + 1 => ((findReplyElts e).take 5).filterMap (extract_comment_data f)
    let ap := authorCascade e authorSelectors "" ""
    some
      { text := extractText e
      , author := ap.1
      , author_id := ap.2
      , time := timeCascade e timeSelectors ""
      , likes := likesCascade e likesSelectors
      , comment_id := commentIdOf e
      , replies := replies }

end Scrapper


namespace Scrapper

/-! ## HTML comment parser (`parse_comments_from_html`, lines 565-636) -/

/-- Strategy 1 (line 594): any element whose `data-ft` attribute value
contains `top_level_post_id`. -/
def strategy1 (doc : List HtmlNode) : List HtmlNode :=
  (docNodes doc).filter (fun n =>
    match getAttr n "data-ft" with
    | some v => strContains v "top_level_post_id"
    | none => false)

/-- Strategy 2 (line 598): `div`s whose class name contains `comment`
case-insensitively. -/
def strategy2 (doc : List HtmlNode) : List HtmlNode :=
  (docNodes doc).filter (fun n =>
    tagOf n == "div" &&
    match getAttr n "class" with
    | some v => strContainsCI v "comment"
    | none => false)

/-- Strategy 3 (line 602): `div`s whose `data-testid` attribute contains
`comment` case-insensitively. -/
def strategy3 (doc : List HtmlNode) : List HtmlNode :=
  (docNodes doc).filter (fun n =>
    tagOf n == "div" &&
    match getAttr n "data-testid" with
    | some v => strContainsCI v "comment"
    | none => false)

/-- Strategy 4 (line 606): `div`s with `role="article"`. -/
def strategy4 (doc : List HtmlNode) : List HtmlNode :=
  (docNodes doc).filter (fun n =>
    tagOf n == "div" && attrEq n "role" "article")

/-- Strategy 5 (line 610): any element whose `data-sigil` attribute
contains `comment` case-insensitively. -/
def strategy5 (doc : List HtmlNode) : List HtmlNode :=
  (docNodes doc).filter (fun n =>
    match getAttr n "data-sigil" with
    | some v => strContainsCI v "comment"
    | none => false)

/-- Candidate discovery (lines 594-610): the five strategies are tried in
order and the first non-empty result is used. -/
def candidateElements (doc : List HtmlNode) : List HtmlNode :=
  let s1 := strategy1 doc
  if ¬ s1.isEmpty then s1 else
  let s2 := strategy2 doc
  if ¬ s2.isEmpty then s2 else
  let s3 := strategy3 doc
  if ¬ s3.isEmpty then s3 else
  let s4 := strategy4 doc
  if ¬ s4.isEmpty then s4 else
  strategy5 doc

/-- Per-candidate extraction and keep condition (lines 614-618): a
candidate is kept when extraction yields a record with non-empty text. -/
def extractKeep (fuel : Nat) (e : HtmlNode) : Option CommentData :=
  match extract_comment_data fuel e with
  | some d => if d.text ≠ "" then some d else none
  | none => none

/-- Result shape of the parser body: the comments list and its length. -/
structure ParseBody where
  comments : List CommentData
  total_count : Nat
deriving Repr

/-- The parser body on an already-built tree (lines 587-628): candidates
truncated at `limit`, each extracted and kept when its text is
non-empty. -/
def parseDoc (doc : List HtmlNode) (limit : Nat) : ParseBody :=
  let comments := ((candidateElements doc).take limit).filterMap (extractKeep (nodeSizeList doc))
  ⟨comments, comments.length⟩

/-- Full result shape of `parse_comments_from_html`, with the `error` key
only the backend-failure branch adds. -/
structure ParseResult where
  comments : List CommentData
  total_count : Nat
  error : Option String
deriving Repr

/-- Model of `parse_comments_from_html`: raises when the parsing backend is not
installed; short-circuits blank markup; converts a backend failure into an
error-annotated empty result (lines 576-636).  `backend` models the
external `BeautifulSoup(html_content, html.parser)` call. -/
def parse_comments_from_html (bsAvailable : Bool)
    (backend : String → Except String (List HtmlNode))
    (html : String) (limit : Nat) : Except String ParseResult :=
  if ¬ bsAvailable then .error "BeautifulSoup is not installed"
  else if pyStrip html = "" then .ok ⟨[], 0, none⟩
  else
    match backend html with
    | .error e => .ok ⟨[], 0, some e⟩
    | .ok doc =>
      let b := parseDoc doc limit
      .ok ⟨b.comments, b.total_count, none⟩

/-! ## Cookie loader (`_load_cookies_for_playwright`, lines 517-562) -/

/-- A Playwright cookie entry; the loader never sets `expires`. -/
structure CookieEntry where
  name : String
  value : String
  domain : String
  path : String
  secure : Bool
  expires : Option Int
deriving Repr, DecidableEq

/-- Cookie-file parsing (lines 538-556): every non-blank, non-comment line
is split at its first whitespace run into a name/value pair with fixed
domain `.facebook.com`, path `/` and `secure`. -/
def load_cookies_for_playwright (lines : List String) : List CookieEntry :=
  lines.foldl (fun acc rawLine =>
    let line := pyStrip rawLine
    if line = "" ∨ pyStartsWith line "#" then acc
    else
      match pySplitNone1 line with
      | [n, v] => acc ++ [⟨n, v, ".facebook.com", "/", true, none⟩]
      | _ => acc) []

/-! ## Post URL construction (`scrape_facebook_post_simple`,
`src/main.py` lines 641-657) -/

/-- Leftmost match of the posts-or-permalink regex search of line 648,
returning the captured identifier. -/
def scanPostsPermalink : List Char → Option String
  | [] => none
  | c :: rest =>
    if "/posts/".data.isPrefixOf (c :: rest) then
      let cap := ((c :: rest).drop 7).takeWhile (fun d => d ≠ '/' ∧ d ≠ '?')
      if cap.isEmpty then scanPostsPermalink rest else some ⟨cap⟩
    else if "/permalink/".data.isPrefixOf (c :: rest) then
      let cap := ((c :: rest).drop 11).takeWhile (fun d => d ≠ '/' ∧ d ≠ '?')
      if cap.isEmpty then scanPostsPermalink rest else some ⟨cap⟩
    else scanPostsPermalink rest

/-- Post-id extraction (lines 643-653): a full URL is reduced to the
`/posts/` or `/permalink/` path segment, else to its last path segment
before any query string; a bare id is kept. -/
def extractPostId (rawPostId : String) : String :=
  let postId := pyStrip rawPostId
  if strContains postId "facebook.com" ∨ strContains postId "http" then
    match scanPostsPermalink postId.data with
    | some v => v
    | none => (pySplit ((pySplit postId "/").getLastD "") "?").headD ""
  else postId

/-- Canonical post URL (lines 656-657). -/
def buildPostUrl (accountName rawPostId : String) : String :=
  "https://www.facebook.com/" ++ pyReplace (pyStrip accountName) "@" "" ++
    "/posts/" ++ extractPostId rawPostId

/-- Mobile-subdomain substitution applied before navigation
(`facebook_client.py` line 231). -/
def mobileUrl (url : String) : String :=
  pyReplace url "www.facebook.com" "m.facebook.com"

end Scrapper


namespace Scrapper

/-! ## Incremental scroll harvester
(`fetch_and_parse_comments_with_browser`, lines 192-515)

The browser is external: each loop iteration reads the live page and runs
`parse_comments_from_html` on it, so the per-iteration parse results enter
the model as an arbitrary sequence `pages : Nat → List CommentData` (the
value of the parsed comments key at iteration `i`), and the final pass
as `finalPage`. -/

/-- The uniqueness key of the merge step (lines 379-380): `comment_id`
when non-empty, else `author + "_" + text[:50]`. -/
def uniqKey (c : CommentData) : String :=
  if c.comment_id ≠ "" then c.comment_id
  else c.author ++ "_" ++ strTake c.text 50

/-- Result of one merge pass over a parsed batch. -/
structure MergeOut where
  all : List CommentData
  seen : List String
  cnt : Nat
deriving Repr

/-- The merge loop body (lines 378-388 and 422-431): walk the batch, add a
record when its key is unseen and its text non-empty, and break as soon as
the accumulator reaches `limit`. -/
def mergeLoop (limit : Nat) : List CommentData → List CommentData → List String → Nat → MergeOut
  | [], acc, seen, cnt => ⟨acc, seen, cnt⟩
  | c :: rest, acc, seen, cnt =>
    let key := uniqKey c
    if key ∉ seen ∧ c.text ≠ "" then
      let acc2 := acc ++ [c]
      let seen2 := key :: seen
      if limit ≤ acc2.length then ⟨acc2, seen2, cnt + 1⟩
      else mergeLoop limit rest acc2 seen2 (cnt + 1)
    else mergeLoop limit rest acc seen cnt

/-- Loop state across scroll iterations. -/
structure LoopState where
  all : List CommentData
  seen : List String
  noNew : Nat
deriving Repr

/-- One scroll iteration's merge and stagnation-counter update (lines
376-399): the batch is truncated to `limit`, merged, and the counter is
reset on any addition and incremented otherwise. -/
def iterOnce (limit : Nat) (st : LoopState) (parsed : List CommentData) : LoopState × Nat :=
  let m := mergeLoop limit (parsed.take limit) st.all st.seen 0
  let noNew := if 0 < m.cnt then 0 else st.noNew + 1
  (⟨m.all, m.seen, noNew⟩, m.cnt)

/-- The scroll loop (lines 283-408): at most `k` more iterations, current
index `i`; stops early on reaching `limit` or on `maxNoNew` consecutive
iterations without additions.  Also returns the number of iterations
executed. -/
def scrollLoop (limit maxNoNew : Nat) (pages : Nat → List CommentData) :
    Nat → Nat → LoopState → LoopState × Nat
  | 0, _, st => (st, 0)
  | k + 1, i, st =>
    let step := iterOnce limit st (pages i)
    let st2 := step.1
    if limit ≤ st2.all.length then (st2, 1)
    else if maxNoNew ≤ st2.noNew then (st2, 1)
    else
      let rec2 := scrollLoop limit maxNoNew pages k (i + 1) st2
      (rec2.1, rec2.2 + 1)

/-- The harvested comment list (lines 283-434): scroll loop from an empty
accumulator, one final merge pass, then truncation to `limit`. -/
def fetchComments (pages : Nat → List CommentData) (finalPage : List CommentData)
    (limit maxScrolls maxNoNew : Nat) : List CommentData :=
  let run := scrollLoop limit maxNoNew pages maxScrolls 0 ⟨[], [], 0⟩
  let fin := mergeLoop limit (finalPage.take limit) run.1.all run.1.seen 0
  fin.all.take limit

/-- Loop-control constants of the source (lines 279-281). -/
def max_scrolls : Nat := 100

/-- Stagnation threshold of the source (line 281). -/
def max_no_new_comments : Nat := 4

/-- Comment assembly of `fetch_and_parse_comments_with_browser` with the
loop constants of the source. -/
def fetchCommentsSrc (pages : Nat → List CommentData) (finalPage : List CommentData)
    (limit : Nat) : List CommentData :=
  fetchComments pages finalPage limit max_scrolls max_no_new_comments

/-- Harvest over page snapshots given as trees: each iteration parses the
`i`-th snapshot exactly as the code runs `parse_comments_from_html` on the
live markup. -/
def fetchFromDocs (docs : Nat → List HtmlNode) (finalDoc : List HtmlNode)
    (limit maxScrolls maxNoNew : Nat) : List CommentData :=
  fetchComments (fun i => (parseDoc (docs i) limit).comments)
    (parseDoc finalDoc limit).comments limit maxScrolls maxNoNew

/-! ### Merge-order stream and the first-occurrence dedup

`mergeExamined`/`scrollExamined`/`fetchExamined` list the records the
merge loops actually examine, in order; `specFirstOccurrence` is the
specification-level greedy filter that keeps only the first record per
uniqueness key (stated from the spec's words, for refinement against the
implementation). -/

/-- The prefix of a batch the merge loop examines before breaking. -/
def mergeExamined (limit : Nat) : List CommentData → List CommentData → List String → List CommentData
  | [], _, _ => []
  | c :: rest, acc, seen =>
    let key := uniqKey c
    if key ∉ seen ∧ c.text ≠ "" then
      let acc2 := acc ++ [c]
      if limit ≤ acc2.length then [c]
      else c :: mergeExamined limit rest acc2 (key :: seen)
    else c :: mergeExamined limit rest acc seen

/-- The records examined across the scroll loop's iterations. -/
def scrollExamined (limit maxNoNew : Nat) (pages : Nat → List CommentData) :
    Nat → Nat → LoopState → List CommentData
  | 0, _, _ => []
  | k + 1, i, st =>
    let ex := mergeExamined limit ((pages i).take limit) st.all st.seen
    let step := iterOnce limit st (pages i)
    let st2 := step.1
    if limit ≤ st2.all.length then ex
    else if maxNoNew ≤ st2.noNew then ex
    else ex ++ scrollExamined limit maxNoNew pages k (i + 1) st2

/-- The full merge-order stream of a harvest, final pass included. -/
def fetchExamined (pages : Nat → List CommentData) (finalPage : List CommentData)
    (limit maxScrolls maxNoNew : Nat) : List CommentData :=
  let run := scrollLoop limit maxNoNew pages maxScrolls 0 ⟨[], [], 0⟩
  scrollExamined limit maxNoNew pages maxScrolls 0 ⟨[], [], 0⟩ ++
    mergeExamined limit (finalPage.take limit) run.1.all run.1.seen

/-- Specification-level dedup: keep a record exactly when its text is
non-empty and its uniqueness key has not been kept before. -/
def specFirstOccurrence (seen : List String) : List CommentData → List CommentData
  | [] => []
  | c :: rest =>
    if uniqKey c ∉ seen ∧ c.text ≠ "" then
      c :: specFirstOccurrence (uniqKey c :: seen) rest
    else specFirstOccurrence seen rest

end Scrapper


namespace Scrapper

/-! ## Top-level result assembly and failure semantics
(`fetch_and_parse_comments_with_browser`, lines 209-515)

Everything inside the outermost `try` drives the external browser; its
outcome enters the model as `body : Except String (List CommentData)` (the
harvested comments, or the message of the exception that aborted the
run).  Timestamps are opaque strings supplied by the ambient clock. -/

/-- The result dict of `fetch_and_parse_comments_with_browser`: the
success branch (lines 477-496) or the failure branch (lines 498-515). -/
structure ScrapeOutcome where
  url : String
  status : String
  success : Bool
  error : Option String
  started_at : String
  fetched_at : String
  duration_seconds : Nat
  comments : List CommentData
  total_count : Nat
  method : Option String
deriving Repr

/-- Control skeleton of `fetch_and_parse_comments_with_browser`: a missing
Playwright dependency raises before any browser work (lines 209-221,
modelled as `Except.error`); otherwise any exception from the browser body
is converted into a failed result dict, and a successful body into the
completed result dict. -/
def fetch_and_parse_comments_with_browser (playwrightAvailable : Bool)
    (importErrorMsg : String) (body : Except String (List CommentData))
    (url startStamp endStamp : String) (duration : Nat) : Except String ScrapeOutcome :=
  if ¬ playwrightAvailable then .error importErrorMsg
  else
    match body with
    | .ok allComments =>
      .ok
        { url := url
        , status := if 0 < allComments.length then "completed" else "completed_no_comments"
        , success := true
        , error := none
        , started_at := startStamp
        , fetched_at := endStamp
        , duration_seconds := duration
        , comments := allComments
        , total_count := allComments.length
        , method := some "browser_rendering_incremental" }
    | .error e =>
      .ok
        { url := url
        , status := "failed"
        , success := false
        , error := some e
        , started_at := startStamp
        , fetched_at := endStamp
        , duration_seconds := duration
        , comments := []
        , total_count := 0
        , method := none }

/-! ## Teardown model (lines 441-475)

The four teardown operations; a world `w : TdOp → Bool` says which
external close calls raise when attempted (`true` = raises). -/

inductive TdOp where
  | closePage
  | closeContext
  | closeBrowser
  | exitPlaywright
deriving Repr, DecidableEq

/-- Outcome of running a cleanup block: the operations attempted in
order, whether an exception escaped the block, and whether the page got
closed. -/
structure TdRun where
  trace : List TdOp
  escaped : Bool
  pageClosed : Bool
deriving Repr, DecidableEq

/-- The `finally` block (lines 441-462): nothing is closed for a
caller-supplied page; otherwise page, context, browser (ordinary mode
only) and the Playwright instance (when owned) are closed in order, with
no per-step guard — the first raising step aborts the block. -/
def finallyCleanup (useExistingPage persistent ownPlaywright : Bool)
    (w : TdOp → Bool) : TdRun :=
  if useExistingPage then ⟨[], false, false⟩
  else
    if w .closePage then ⟨[.closePage], true, false⟩
    else if w .closeContext then ⟨[.closePage, .closeContext], true, true⟩
    else if persistent then
      if ownPlaywright then
        ⟨[.closePage, .closeContext, .exitPlaywright], w .exitPlaywright, true⟩
      else ⟨[.closePage, .closeContext], false, true⟩
    else if w .closeBrowser then
      ⟨[.closePage, .closeContext, .closeBrowser], true, true⟩
    else if ownPlaywright then
      ⟨[.closePage, .closeContext, .closeBrowser, .exitPlaywright], w .exitPlaywright, true⟩
    else ⟨[.closePage, .closeContext, .closeBrowser], false, true⟩

/-- The `except` handler's cleanup (lines 463-475): guarded only by
variable existence and `page.is_closed()`; again the first raising step
aborts the block.  `pageLocal`/`contextLocal`/`browserLocal` say which
handles exist (browser is `None` in persistent mode). -/
def exceptCleanup (useExistingPage ownPlaywright : Bool)
    (pageLocal pageClosed contextLocal browserLocal : Bool)
    (w : TdOp → Bool) : TdRun :=
  if useExistingPage then ⟨[], false, pageClosed⟩
  else
    let t0 : List TdOp := if pageLocal ∧ ¬ pageClosed then [.closePage] else []
    if pageLocal ∧ ¬ pageClosed ∧ w .closePage then ⟨t0, true, pageClosed⟩
    else
      let pc := pageClosed ∨ pageLocal
      let t1 := t0 ++ (if contextLocal then [.closeContext] else [])
      if contextLocal ∧ w .closeContext then ⟨t1, true, pc⟩
      else
        let t2 := t1 ++ (if browserLocal then [.closeBrowser] else [])
        if browserLocal ∧ w .closeBrowser then ⟨t2, true, pc⟩
        else
          let t3 := t2 ++ (if ownPlaywright then [.exitPlaywright] else [])
          if ownPlaywright ∧ w .exitPlaywright then ⟨t3, true, pc⟩
          else ⟨t3, false, pc⟩

/-- Teardown trace of the run path (the inner `try`/`finally` at lines
261-462 followed, when the body failed or the `finally` itself raised, by
the handler at lines 463-475): the operations attempted, in order. -/
def teardownRunPath (useExistingPage persistent ownPlaywright bodyFailed : Bool)
    (w : TdOp → Bool) : List TdOp :=
  let fin := finallyCleanup useExistingPage persistent ownPlaywright w
  if fin.escaped ∨ bodyFailed then
    fin.trace ++
      (exceptCleanup useExistingPage ownPlaywright true fin.pageClosed true
        (¬ persistent) w).trace
  else fin.trace

/-- Teardown trace when browser acquisition itself raised (the handler at
lines 463-475 runs alone, with only the handles created so far). -/
def teardownAcquirePath (useExistingPage ownPlaywright pageLocal contextLocal browserLocal : Bool)
    (w : TdOp → Bool) : List TdOp :=
  (exceptCleanup useExistingPage ownPlaywright pageLocal false contextLocal browserLocal w).trace

/-- The teardown order the session lifecycle aims for. -/
def canonicalTeardown (persistent ownPlaywright : Bool) : List TdOp :=
  [.closePage, .closeContext] ++
    (if persistent then [] else [.closeBrowser]) ++
    (if ownPlaywright then [.exitPlaywright] else [])

end Scrapper


namespace Scrapper

/-! ## Whitespace and stripping lemmas -/

theorem dropWhile_head_not {p : Char → Bool} :
    ∀ (l : List Char) {c : Char} {cs : List Char}, l.dropWhile p = c :: cs → p c = false := by
  intro l
  induction l with
  | nil => intro c cs h; simp [List.dropWhile] at h
  | cons a as ih =>
    intro c cs h
    by_cases hp : p a
    · rw [List.dropWhile_cons_of_pos hp] at h
      exact ih h
    · rw [List.dropWhile_cons_of_neg hp] at h
      cases h
      simpa using hp

theorem mem_dropWhile_of_not {p : Char → Bool} {c : Char} (hc : p c = false) :
    ∀ {l : List Char}, c ∈ l → c ∈ l.dropWhile p := by
  intro l
  induction l with
  | nil => intro h; exact absurd h (List.not_mem_nil c)
  | cons a as ih =>
    intro h
    by_cases hp : p a
    · rw [List.dropWhile_cons_of_pos hp]
      rcases List.mem_cons.mp h with h1 | h2
      · subst h1; rw [hc] at hp; cases hp
      · exact ih h2
    · rw [List.dropWhile_cons_of_neg hp]
      exact h

theorem mem_pyStripL_of_not {c : Char} (hc : pyWS c = false) {l : List Char} (hm : c ∈ l) :
    c ∈ pyStripL l := by
  unfold pyStripL dropTrail
  refine List.mem_reverse.mpr (mem_dropWhile_of_not hc (List.mem_reverse.mpr ?_))
  exact mem_dropWhile_of_not hc hm

theorem pyStripL_ne_nil_of_mem {c : Char} (hc : pyWS c = false) {l : List Char} (hm : c ∈ l) :
    pyStripL l ≠ [] :=
  List.ne_nil_of_mem (mem_pyStripL_of_not hc hm)

theorem exists_not_ws_of_pyStripL_ne_nil {l : List Char} (h : pyStripL l ≠ []) :
    ∃ c ∈ pyStripL l, pyWS c = false := by
  unfold pyStripL dropTrail at *
  rcases hd : ((l.dropWhile pyWS).reverse.dropWhile pyWS) with _ | ⟨c, cs⟩
  · rw [hd] at h; simp at h
  · refine ⟨c, ?_, dropWhile_head_not _ hd⟩
    simp

theorem mem_data_of_pyStrip_ne {s : String} (h : pyStrip s ≠ "") :
    ∃ c ∈ (pyStrip s).data, pyWS c = false := by
  have hne : pyStripL s.data ≠ [] := by
    intro hc
    exact h (show pyStrip s = "" from congrArg String.mk hc)
  simpa [pyStrip] using exists_not_ws_of_pyStripL_ne_nil hne

theorem pyStrip_ne_of_ink {t : String} (h : ∃ c ∈ t.data, pyWS c = false) :
    pyStrip t ≠ "" := by
  rcases h with ⟨c, hm, hc⟩
  intro he
  have : pyStripL t.data ≠ [] := pyStripL_ne_nil_of_mem hc hm
  apply this
  have := congrArg String.data he
  simpa [pyStrip] using this

theorem pyStrip_sub_data {s : String} {c : Char} (h : c ∈ (pyStrip s).data) : c ∈ s.data := by
  have h1 : c ∈ pyStripL s.data := by simpa [pyStrip] using h
  unfold pyStripL dropTrail at h1
  have h2 : c ∈ (s.data.dropWhile pyWS).reverse.dropWhile pyWS := List.mem_reverse.mp h1
  have h3 : c ∈ (s.data.dropWhile pyWS).reverse := (List.dropWhile_sublist _).mem h2
  have h4 : c ∈ s.data.dropWhile pyWS := List.mem_reverse.mp h3
  exact (List.dropWhile_sublist _).mem h4

/-- A non-empty stripped string has a non-whitespace character; restripping
it is therefore still non-empty. -/
theorem pyStrip_pyStrip_ne {x : String} (h : pyStrip x ≠ "") : pyStrip (pyStrip x) ≠ "" :=
  pyStrip_ne_of_ink (mem_data_of_pyStrip_ne h)

end Scrapper


namespace Scrapper

/-! ## Text extraction produces no whitespace-only strings -/

theorem foldl_append_data (l : List String) :
    ∀ s : String, (l.foldl (· ++ ·) s).data = s.data ++ (l.map String.data).flatten := by
  induction l with
  | nil => intro s; simp
  | cons a as ih =>
    intro s
    simp only [List.foldl_cons, List.map_cons, List.flatten_cons, ih (s ++ a),
      String.data_append]
    simp [List.append_assoc]

theorem join_data (l : List String) : (String.join l).data = (l.map String.data).flatten := by
  have h := foldl_append_data l ""
  simpa [String.join] using h

/-- A non-empty `get_text(strip=True)` result contains a non-whitespace
character, hence is itself not whitespace-only. -/
theorem getTextStrip_not_blank {n : HtmlNode} (h : getTextStrip n ≠ "") :
    pyStrip (getTextStrip n) ≠ "" := by
  apply pyStrip_ne_of_ink
  have hd : (getTextStrip n).data = (((textStrings n).map pyStrip).map String.data).flatten := by
    simp only [getTextStrip]
    exact join_data ((textStrings n).map pyStrip)
  have hne : (getTextStrip n).data ≠ [] := by
    intro hc
    apply h
    have := congrArg String.mk hc
    cases hg : getTextStrip n with
    | mk d =>
      rw [hg] at hc
      exact congrArg String.mk hc
  have hpiece : ∃ p ∈ (textStrings n).map pyStrip, p.data ≠ [] := by
    by_contra hall
    push_neg at hall
    apply hne
    rw [hd, List.flatten_eq_nil_iff]
    intro xs hxs
    rcases List.mem_map.mp hxs with ⟨p, hp, rfl⟩
    exact hall p hp
  rcases hpiece with ⟨p, hp, hpne⟩
  rcases List.mem_map.mp hp with ⟨q, hq, rfl⟩
  have hq2 : pyStripL q.data ≠ [] := by simpa [pyStrip] using hpne
  rcases exists_not_ws_of_pyStripL_ne_nil hq2 with ⟨c, hcm, hcw⟩
  refine ⟨c, ?_, hcw⟩
  rw [hd]
  refine List.mem_flatten.mpr ⟨(pyStrip q).data, List.mem_map.mpr ⟨pyStrip q, hp, rfl⟩, ?_⟩
  simpa [pyStrip] using hcm

/-- Invariant of the text selector cascade: a non-empty result is not
whitespace-only, provided the incoming candidate already satisfies this. -/
theorem textCascade_not_blank (e : HtmlNode) :
    ∀ (sels : List Sel) (cur : String), (cur ≠ "" → pyStrip cur ≠ "") →
      (textCascade e sels cur ≠ "" → pyStrip (textCascade e sels cur) ≠ "") := by
  intro sels
  induction sels with
  | nil => intro cur hcur; simpa [textCascade] using hcur
  | cons s rest ih =>
    intro cur hcur
    unfold textCascade
    rcases selectOne e s with _ | el
    · exact ih cur hcur
    · simp only []
      by_cases ht : getTextStrip el ≠ ""
      · simpa [ht] using getTextStrip_not_blank ht
      · push_neg at ht
        simpa [ht] using ih "" (by simp)

/-- The extracted comment text is never a non-empty whitespace-only
string. -/
theorem extractText_not_blank (e : HtmlNode) (h : extractText e ≠ "") :
    pyStrip (extractText e) ≠ "" := by
  unfold extractText at *
  by_cases hc : textCascade e textSelectors "" = ""
  · rw [hc] at h ⊢
    simp only [if_pos rfl] at h ⊢
    exact pyStrip_pyStrip_ne h
  · rw [if_neg hc] at h ⊢
    exact textCascade_not_blank e textSelectors "" (by simp) h

end Scrapper


namespace Scrapper

theorem extract_text_eq (fuel : Nat) (e : HtmlNode) {d : CommentData}
    (h : extract_comment_data fuel e = some d) : d.text = extractText e := by
  cases fuel with
  | zero =>
    unfold extract_comment_data at h
    injection h with h2
    rw [← h2]
  | succ f =>
    unfold extract_comment_data at h
    injection h with h2
    rw [← h2]

/-- Every record the HTML comment parser keeps has non-empty,
non-whitespace-only text. -/
theorem parseDoc_mem_text {doc : List HtmlNode} {limit : Nat} {c : CommentData}
    (hc : c ∈ (parseDoc doc limit).comments) : c.text ≠ "" ∧ pyStrip c.text ≠ "" := by
  have hc2 : c ∈ ((candidateElements doc).take limit).filterMap (extractKeep (nodeSizeList doc)) := by
    simpa [parseDoc] using hc
  rcases List.mem_filterMap.mp hc2 with ⟨e, _, hk⟩
  unfold extractKeep at hk
  rcases hx : extract_comment_data (nodeSizeList doc) e with _ | d
  · rw [hx] at hk; simp at hk
  · rw [hx] at hk
    dsimp only at hk
    by_cases ht : d.text ≠ ""
    · rw [if_pos ht] at hk
      injection hk with hdc
      subst hdc
      have hte := extract_text_eq _ e hx
      refine ⟨ht, ?_⟩
      rw [hte] at ht ⊢
      exact extractText_not_blank e ht
    · rw [if_neg ht] at hk; cases hk

/-! ## Preservation of record predicates through the harvester -/

theorem mergeLoop_pres (P : CommentData → Prop) (limit : Nat) :
    ∀ (cs acc : List CommentData) (seen : List String) (cnt : Nat),
      (∀ c ∈ cs, P c) → (∀ c ∈ acc, P c) →
      ∀ c ∈ (mergeLoop limit cs acc seen cnt).all, P c := by
  intro cs
  induction cs with
  | nil => intro acc seen cnt _ hacc c hc; exact hacc c (by simpa [mergeLoop] using hc)
  | cons a rest ih =>
    intro acc seen cnt hcs hacc c hc
    have hrest : ∀ c ∈ rest, P c := fun x hx => hcs x (List.mem_cons_of_mem a hx)
    have ha : P a := hcs a (List.mem_cons_self a rest)
    have hacc2 : ∀ c ∈ acc ++ [a], P c := by
      intro x hx
      rcases List.mem_append.mp hx with h1 | h2
      · exact hacc x h1
      · rw [List.mem_singleton.mp h2]; exact ha
    unfold mergeLoop at hc
    by_cases hcond : uniqKey a ∉ seen ∧ a.text ≠ ""
    · rw [if_pos hcond] at hc
      by_cases hlim : limit ≤ (acc ++ [a]).length
      · rw [if_pos hlim] at hc
        exact hacc2 c hc
      · rw [if_neg hlim] at hc
        exact ih (acc ++ [a]) (uniqKey a :: seen) (cnt + 1) hrest hacc2 c hc
    · rw [if_neg hcond] at hc
      exact ih acc seen cnt hrest hacc c hc

theorem scrollLoop_pres (P : CommentData → Prop) (limit maxNoNew : Nat)
    (pages : Nat → List CommentData) (hp : ∀ i c, c ∈ pages i → P c) :
    ∀ (k i : Nat) (st : LoopState), (∀ c ∈ st.all, P c) →
      ∀ c ∈ (scrollLoop limit maxNoNew pages k i st).1.all, P c := by
  intro k
  induction k with
  | zero => intro i st hst c hc; exact hst c (by simpa [scrollLoop] using hc)
  | succ k ih =>
    intro i st hst c hc
    have hpage : ∀ c ∈ (pages i).take limit, P c :=
      fun x hx => hp i x (List.mem_of_mem_take hx)
    have hst2 : ∀ c ∈ (iterOnce limit st (pages i)).1.all, P c := by
      intro x hx
      exact mergeLoop_pres P limit _ _ _ _ hpage hst x (by simpa [iterOnce] using hx)
    unfold scrollLoop at hc
    by_cases h1 : limit ≤ (iterOnce limit st (pages i)).1.all.length
    · rw [if_pos h1] at hc
      exact hst2 c hc
    · rw [if_neg h1] at hc
      by_cases h2 : maxNoNew ≤ (iterOnce limit st (pages i)).1.noNew
      · rw [if_pos h2] at hc
        exact hst2 c hc
      · rw [if_neg h2] at hc
        exact ih (i + 1) _ hst2 c hc

theorem fetchComments_pres (P : CommentData → Prop)
    (pages : Nat → List CommentData) (finalPage : List CommentData)
    (limit maxScrolls maxNoNew : Nat)
    (hp : ∀ i c, c ∈ pages i → P c) (hf : ∀ c ∈ finalPage, P c) :
    ∀ c ∈ fetchComments pages finalPage limit maxScrolls maxNoNew, P c := by
  intro c hc
  unfold fetchComments at hc
  have hc2 := List.mem_of_mem_take hc
  refine mergeLoop_pres P limit _ _ _ _ (fun x hx => hf x (List.mem_of_mem_take hx)) ?_ c hc2
  exact scrollLoop_pres P limit maxNoNew pages hp maxScrolls 0 ⟨[], [], 0⟩ (by simp) 

end Scrapper


namespace Scrapper

/-! ## The harvester accumulator is the first-occurrence dedup of the
merge-order stream -/

theorem mergeLoop_char (limit : Nat) :
    ∀ (cs acc : List CommentData) (seen : List String) (cnt : Nat),
      mergeLoop limit cs acc seen cnt =
        ⟨acc ++ specFirstOccurrence seen (mergeExamined limit cs acc seen),
         ((specFirstOccurrence seen (mergeExamined limit cs acc seen)).map uniqKey).reverse ++ seen,
         cnt + (specFirstOccurrence seen (mergeExamined limit cs acc seen)).length⟩ := by
  intro cs
  induction cs with
  | nil =>
    intro acc seen cnt
    simp [mergeLoop, mergeExamined, specFirstOccurrence]
  | cons a rest ih =>
    intro acc seen cnt
    by_cases hcond : uniqKey a ∉ seen ∧ a.text ≠ ""
    · by_cases hlim : limit ≤ (acc ++ [a]).length
      · simp only [mergeLoop, mergeExamined, if_pos hcond, if_pos hlim]
        simp [specFirstOccurrence, hcond]
      · simp only [mergeLoop, mergeExamined, if_pos hcond, if_neg hlim]
        rw [ih]
        simp only [specFirstOccurrence, if_pos hcond]
        simp only [MergeOut.mk.injEq]
        refine ⟨by simp, by simp [List.reverse_cons, List.append_assoc], by
          simp only [List.length_cons]; omega⟩
    · simp only [mergeLoop, mergeExamined, if_neg hcond]
      rw [ih]
      simp [specFirstOccurrence, hcond]

end Scrapper


namespace Scrapper

theorem specFirstOccurrence_append :
    ∀ (l1 l2 : List CommentData) (seen : List String),
      specFirstOccurrence seen (l1 ++ l2) =
        specFirstOccurrence seen l1 ++
          specFirstOccurrence (((specFirstOccurrence seen l1).map uniqKey).reverse ++ seen) l2 := by
  intro l1
  induction l1 with
  | nil => intro l2 seen; simp [specFirstOccurrence]
  | cons a l1 ih =>
    intro l2 seen
    by_cases hcond : uniqKey a ∉ seen ∧ a.text ≠ ""
    · simp only [List.cons_append, specFirstOccurrence, if_pos hcond, List.append_eq]
      rw [ih]
      simp [List.append_assoc]
    · simp only [List.cons_append, specFirstOccurrence, if_neg hcond]
      exact ih l2 seen

theorem scrollLoop_char (limit maxNoNew : Nat) (pages : Nat → List CommentData) :
    ∀ (k i : Nat) (st : LoopState),
      (scrollLoop limit maxNoNew pages k i st).1.all =
        st.all ++ specFirstOccurrence st.seen (scrollExamined limit maxNoNew pages k i st)
      ∧ (scrollLoop limit maxNoNew pages k i st).1.seen =
        ((specFirstOccurrence st.seen (scrollExamined limit maxNoNew pages k i st)).map uniqKey).reverse
          ++ st.seen := by
  intro k
  induction k with
  | zero => intro i st; simp [scrollLoop, scrollExamined, specFirstOccurrence]
  | succ k ih =>
    intro i st
    have hm := mergeLoop_char limit ((pages i).take limit) st.all st.seen 0
    by_cases h1 : limit ≤ (iterOnce limit st (pages i)).1.all.length
    · simp only [scrollLoop, scrollExamined, if_pos h1]
      constructor
      · simp [iterOnce, hm]
      · simp [iterOnce, hm]
    · by_cases h2 : maxNoNew ≤ (iterOnce limit st (pages i)).1.noNew
      · simp only [scrollLoop, scrollExamined, if_neg h1, if_pos h2]
        constructor
        · simp [iterOnce, hm]
        · simp [iterOnce, hm]
      · simp only [scrollLoop, scrollExamined, if_neg h1, if_neg h2]
        rcases ih (i + 1) (iterOnce limit st (pages i)).1 with ⟨iha, ihs⟩
        rw [specFirstOccurrence_append]
        constructor
        · rw [iha]
          have hall : (iterOnce limit st (pages i)).1.all =
              st.all ++ specFirstOccurrence st.seen
                (mergeExamined limit ((pages i).take limit) st.all st.seen) := by
            simp [iterOnce, hm]
          have hseen : (iterOnce limit st (pages i)).1.seen =
              ((specFirstOccurrence st.seen
                (mergeExamined limit ((pages i).take limit) st.all st.seen)).map uniqKey).reverse
                ++ st.seen := by
            simp [iterOnce, hm]
          rw [hall, hseen]
          simp [List.append_assoc]
        · rw [ihs]
          have hseen : (iterOnce limit st (pages i)).1.seen =
              ((specFirstOccurrence st.seen
                (mergeExamined limit ((pages i).take limit) st.all st.seen)).map uniqKey).reverse
                ++ st.seen := by
            simp [iterOnce, hm]
          rw [hseen]
          simp [List.append_assoc]

/-- The harvested list is exactly the first-occurrence dedup of the
merge-order stream, truncated at the limit. -/
theorem fetchComments_char (pages : Nat → List CommentData) (finalPage : List CommentData)
    (limit maxScrolls maxNoNew : Nat) :
    fetchComments pages finalPage limit maxScrolls maxNoNew =
      (specFirstOccurrence []
        (fetchExamined pages finalPage limit maxScrolls maxNoNew)).take limit := by
  unfold fetchComments fetchExamined
  dsimp only
  rcases scrollLoop_char limit maxNoNew pages maxScrolls 0 ⟨[], [], 0⟩ with ⟨ha, hs⟩
  rw [specFirstOccurrence_append]
  have hm := mergeLoop_char limit (finalPage.take limit)
    (scrollLoop limit maxNoNew pages maxScrolls 0 ⟨[], [], 0⟩).1.all
    (scrollLoop limit maxNoNew pages maxScrolls 0 ⟨[], [], 0⟩).1.seen 0
  rw [hm]
  simp only [ha, hs]
  simp

theorem specFirstOccurrence_nodup :
    ∀ (l : List CommentData) (seen : List String),
      ((specFirstOccurrence seen l).map uniqKey).Nodup
      ∧ ∀ k ∈ (specFirstOccurrence seen l).map uniqKey, k ∉ seen := by
  intro l
  induction l with
  | nil => intro seen; simp [specFirstOccurrence]
  | cons a rest ih =>
    intro seen
    by_cases hcond : uniqKey a ∉ seen ∧ a.text ≠ ""
    · simp only [specFirstOccurrence, if_pos hcond, List.map_cons]
      rcases ih (uniqKey a :: seen) with ⟨ihn, ihs⟩
      refine ⟨List.nodup_cons.mpr ⟨?_, ihn⟩, ?_⟩
      · intro hmem
        exact (ihs _ hmem) (List.mem_cons_self _ _)
      · intro k hk
        rcases List.mem_cons.mp hk with h1 | h2
        · rw [h1]; exact hcond.1
        · intro hks
          exact (ihs k h2) (List.mem_cons_of_mem _ hks)
    · simp only [specFirstOccurrence, if_neg hcond]
      exact ih seen

end Scrapper


namespace Scrapper

/-- C1: in every result of `fetch_and_parse_comments_with_browser` the
uniqueness keys (`comment_id` when non-empty, else
`author + "_" + text[:50]`) of the records are pairwise distinct, and the
result keeps exactly the first occurrence of each key — it equals the
first-occurrence dedup of the merge-order stream (scroll iterations
followed by the final pass), truncated at the limit. -/
theorem c1_uniqueness_keys (pages : Nat → List CommentData) (finalPage : List CommentData)
    (limit maxScrolls maxNoNew : Nat) :
    ((fetchComments pages finalPage limit maxScrolls maxNoNew).map uniqKey).Nodup
    ∧ fetchComments pages finalPage limit maxScrolls maxNoNew =
        (specFirstOccurrence []
          (fetchExamined pages finalPage limit maxScrolls maxNoNew)).take limit := by
  have hchar := fetchComments_char pages finalPage limit maxScrolls maxNoNew
  refine ⟨?_, hchar⟩
  rw [hchar, List.map_take]
  exact ((specFirstOccurrence_nodup _ []).1).sublist (List.take_sublist _ _)

/-- C2: the parser keeps at most `L` records, all drawn from the first `L`
candidate elements in discovery order, and every harvest result also has
length at most `L`. -/
theorem c2_limit_respected (doc : List HtmlNode) (L : Nat) (hL : 1 ≤ L) :
    (parseDoc doc L).comments.length ≤ L
    ∧ (∀ c ∈ (parseDoc doc L).comments,
        ∃ e ∈ (candidateElements doc).take L, extractKeep (nodeSizeList doc) e = some c)
    ∧ (∀ (pages : Nat → List CommentData) (finalPage : List CommentData)
        (maxScrolls maxNoNew : Nat),
          (fetchComments pages finalPage L maxScrolls maxNoNew).length ≤ L) := by
  refine ⟨?_, ?_, ?_⟩
  · have h1 : (parseDoc doc L).comments =
        ((candidateElements doc).take L).filterMap (extractKeep (nodeSizeList doc)) := rfl
    rw [h1]
    calc (((candidateElements doc).take L).filterMap (extractKeep (nodeSizeList doc))).length
        ≤ ((candidateElements doc).take L).length := List.length_filterMap_le _ _
      _ ≤ L := List.length_take_le _ _
  · intro c hc
    have hc2 : c ∈ ((candidateElements doc).take L).filterMap (extractKeep (nodeSizeList doc)) := hc
    exact List.mem_filterMap.mp hc2
  · intro pages finalPage maxScrolls maxNoNew
    unfold fetchComments
    exact List.length_take_le _ _

/-- Witness for `c2_limit_respected` at `L = 1` on a one-candidate
document. -/
theorem c2_limit_respected_witness :
    1 ≤ 1
    ∧ ((parseDoc [.elt "div" [("data-ft", "ft top_level_post_id 1")] [.txt "hello"]] 1).comments.length ≤ 1
      ∧ (∀ c ∈ (parseDoc [.elt "div" [("data-ft", "ft top_level_post_id 1")] [.txt "hello"]] 1).comments,
          ∃ e ∈ (candidateElements [.elt "div" [("data-ft", "ft top_level_post_id 1")] [.txt "hello"]]).take 1,
            extractKeep (nodeSizeList [.elt "div" [("data-ft", "ft top_level_post_id 1")] [.txt "hello"]]) e = some c)
      ∧ (∀ (pages : Nat → List CommentData) (finalPage : List CommentData)
          (maxScrolls maxNoNew : Nat),
            (fetchComments pages finalPage 1 maxScrolls maxNoNew).length ≤ 1)) :=
  ⟨Nat.le_refl 1,
    c2_limit_respected [.elt "div" [("data-ft", "ft top_level_post_id 1")] [.txt "hello"]] 1 (Nat.le_refl 1)⟩

/-- C4: a missing Playwright dependency is raised before any browser work;
any other exception while driving the browser is returned as a well-formed
failed result dict with `success=false`, `status="failed"`, the exception
message, empty comments, zero count and the timing metadata. -/
theorem c4_failure_semantics (e url startStamp endStamp importMsg : String) (dur : Nat)
    (body : Except String (List CommentData)) :
    fetch_and_parse_comments_with_browser true importMsg (.error e) url startStamp endStamp dur
      = .ok ⟨url, "failed", false, some e, startStamp, endStamp, dur, [], 0, none⟩
    ∧ fetch_and_parse_comments_with_browser false importMsg body url startStamp endStamp dur
      = .error importMsg := by
  constructor
  · rfl
  · rfl

/-- Counterexample to C5: the 7-field cookie-jar line does not parse to a
`c_user` cookie. -/
theorem c5_counterexample :
    load_cookies_for_playwright ["example.com\tTRUE\t/\tTRUE\t0\tc_user\t12345"]
      ≠ [⟨"c_user", "12345", "example.com", "/", true, none⟩] := by
  decide

/-- C5 (amended): the cookie loader treats every line, tab-separated ones
included, as a single whitespace-separated name/value pair: the 7-field
line parses to name `example.com`, value the remaining tab-joined fields,
fixed domain `.facebook.com`, path `/`, `secure`, and no expiration. -/
theorem c5_cookie_line :
    load_cookies_for_playwright ["example.com\tTRUE\t/\tTRUE\t0\tc_user\t12345"]
      = [⟨"example.com", "TRUE\t/\tTRUE\t0\tc_user\t12345", ".facebook.com", "/", true, none⟩] := rfl

/-- C6: candidate discovery stops at the first strategy that yields at
least one element; whenever strategy 1 (`data-ft` containing
`top_level_post_id`) matches, the candidate set is exactly its matches. -/
theorem c6_cascade_priority (doc : List HtmlNode) (h : strategy1 doc ≠ []) :
    candidateElements doc = strategy1 doc := by
  unfold candidateElements
  have h2 : (strategy1 doc).isEmpty = false := by
    rcases he : strategy1 doc with _ | _
    · exact absurd he h
    · rfl
  simp [h2]

/-- Witness for `c6_cascade_priority` on markup matching strategies 1 and
2 at once: only strategy 1's matches are used. -/
theorem c6_cascade_priority_witness :
    strategy1 [.elt "html" [] [
        .elt "div" [("data-ft", "ft top_level_post_id 1")] [.txt "hi"],
        .elt "div" [("class", "comment thing")] [.txt "yo"]]] ≠ []
    ∧ strategy2 [.elt "html" [] [
        .elt "div" [("data-ft", "ft top_level_post_id 1")] [.txt "hi"],
        .elt "div" [("class", "comment thing")] [.txt "yo"]]] ≠ []
    ∧ candidateElements [.elt "html" [] [
        .elt "div" [("data-ft", "ft top_level_post_id 1")] [.txt "hi"],
        .elt "div" [("class", "comment thing")] [.txt "yo"]]]
      = strategy1 [.elt "html" [] [
        .elt "div" [("data-ft", "ft top_level_post_id 1")] [.txt "hi"],
        .elt "div" [("class", "comment thing")] [.txt "yo"]]] := by
  refine ⟨?_, ?_, c6_cascade_priority _ ?_⟩
  · intro h
    rw [show strategy1 [.elt "html" [] [
        .elt "div" [("data-ft", "ft top_level_post_id 1")] [.txt "hi"],
        .elt "div" [("class", "comment thing")] [.txt "yo"]]]
      = [.elt "div" [("data-ft", "ft top_level_post_id 1")] [.txt "hi"]] from rfl] at h
    cases h
  · intro h
    rw [show strategy2 [.elt "html" [] [
        .elt "div" [("data-ft", "ft top_level_post_id 1")] [.txt "hi"],
        .elt "div" [("class", "comment thing")] [.txt "yo"]]]
      = [.elt "div" [("class", "comment thing")] [.txt "yo"]] from rfl] at h
    cases h
  · intro h
    rw [show strategy1 [.elt "html" [] [
        .elt "div" [("data-ft", "ft top_level_post_id 1")] [.txt "hi"],
        .elt "div" [("class", "comment thing")] [.txt "yo"]]]
      = [.elt "div" [("data-ft", "ft top_level_post_id 1")] [.txt "hi"]] from rfl] at h
    cases h

/-- C10: a parsing-backend failure on non-blank markup is swallowed:
the caller gets an empty, error-annotated result dict instead of an
exception. -/
theorem c10_backend_error_swallowed (html : String) (L : Nat) (e : String)
    (h : pyStrip html ≠ "") :
    parse_comments_from_html true (fun _ => .error e) html L = .ok ⟨[], 0, some e⟩ := by
  unfold parse_comments_from_html
  simp [h]

/-- Witness for `c10_backend_error_swallowed` on concrete markup. -/
theorem c10_backend_error_swallowed_witness :
    pyStrip "<div>x</div>" ≠ ""
    ∧ parse_comments_from_html true (fun _ => .error "boom") "<div>x</div>" 5
        = .ok ⟨[], 0, some "boom"⟩ :=
  ⟨by decide, c10_backend_error_swallowed "<div>x</div>" 5 "boom" (by decide)⟩

end Scrapper


namespace Scrapper

/-- C8: the canonical post URL construction — a bare identifier is kept
(after stripping), a full URL is reduced via `/posts/<id>` or
`/permalink/<id>` else its last path segment before the query string, the
account is stripped of `@`, browser navigation substitutes the mobile
subdomain, and an author anchor `href="/profile.php?id=998877&foo=bar"`
yields `author_id = "998877"`. -/
theorem c8_url_and_author_id :
    (∀ pid : String, strContains (pyStrip pid) "facebook.com" = false →
        strContains (pyStrip pid) "http" = false → extractPostId pid = pyStrip pid)
    ∧ extractPostId "https://www.facebook.com/acme/posts/12345?comment_id=7" = "12345"
    ∧ extractPostId "https://www.facebook.com/acme/permalink/98765/" = "98765"
    ∧ extractPostId "https://facebook.com/x/abc?q=1" = "abc"
    ∧ buildPostUrl " @acme " "12345" = "https://www.facebook.com/acme/posts/12345"
    ∧ mobileUrl (buildPostUrl "acme" "12345") = "https://m.facebook.com/acme/posts/12345"
    ∧ authorIdFromHref "/profile.php?id=998877&foo=bar" "" = "998877"
    ∧ (extract_comment_data 1
        (.elt "div" [] [.elt "a" [("href", "/profile.php?id=998877&foo=bar")] [.txt "John"]])).map
        CommentData.author_id = some "998877" := by
  refine ⟨?_, rfl, rfl, rfl, rfl, rfl, rfl, rfl⟩
  intro pid h1 h2
  unfold extractPostId
  simp [h1, h2]

/-- Witness for `c8_url_and_author_id` on a bare post identifier. -/
theorem c8_url_and_author_id_witness :
    strContains (pyStrip "pfbid0abc") "facebook.com" = false
    ∧ strContains (pyStrip "pfbid0abc") "http" = false
    ∧ extractPostId "pfbid0abc" = pyStrip "pfbid0abc" :=
  ⟨rfl, rfl, c8_url_and_author_id.1 "pfbid0abc" rfl rfl⟩

/-- C9 (amended): when no teardown step fails, an owned-resources harvest
closes page, context, browser (ordinary mode only) and the Playwright
instance (when owned) in that order, and a caller-supplied page is never
closed on any path or in any failure world; the steps are however not
individually guarded (see the counterexample). -/
theorem c9_teardown_order (persistent ownPw : Bool) (w : TdOp → Bool)
    (hw : ∀ op, w op = false) :
    teardownRunPath false persistent ownPw false w = canonicalTeardown persistent ownPw
    ∧ (∀ (w2 : TdOp → Bool) (p2 o2 b2 : Bool), teardownRunPath true p2 o2 b2 w2 = [])
    ∧ (∀ (w2 : TdOp → Bool) (o2 pL cL bL : Bool), teardownAcquirePath true o2 pL cL bL w2 = []) := by
  refine ⟨?_, ?_, ?_⟩
  · cases persistent <;> cases ownPw <;>
      simp [teardownRunPath, finallyCleanup, canonicalTeardown, hw]
  · intro w2 p2 o2 b2
    cases b2 <;> simp [teardownRunPath, finallyCleanup, exceptCleanup]
  · intro w2 o2 pL cL bL
    simp [teardownAcquirePath, exceptCleanup]

/-- Witness for `c9_teardown_order` in ordinary mode with an owned
Playwright instance and no failing step. -/
theorem c9_teardown_order_witness :
    (∀ op : TdOp, (fun _ : TdOp => false) op = false)
    ∧ teardownRunPath false false true false (fun _ : TdOp => false)
        = canonicalTeardown false true :=
  ⟨fun _ => rfl, (c9_teardown_order false true (fun _ => false) (fun _ => rfl)).1⟩

/-- Counterexample to C9: with a context-close that keeps failing
(ordinary mode, owned resources, body succeeded), the browser-close step is
skipped on both the `finally` pass and the handler's retry — the steps are
not individually guarded. -/
theorem c9_counterexample :
    teardownRunPath false false true false (fun op => op == TdOp.closeContext)
      = [.closePage, .closeContext, .closeContext]
    ∧ TdOp.closeBrowser ∉ teardownRunPath false false true false (fun op => op == TdOp.closeContext) := by
  constructor
  · rfl
  · decide

end Scrapper


namespace Scrapper

/-- C7 (amended): every record in the top-level comments list of a parse
or harvest result has non-empty, non-whitespace-only text (nested reply
records are exempt — see the counterexample). -/
theorem c7_no_blank_top_level :
    (∀ (doc : List HtmlNode) (limit : Nat), ∀ c ∈ (parseDoc doc limit).comments,
        c.text ≠ "" ∧ pyStrip c.text ≠ "")
    ∧ (∀ (docs : Nat → List HtmlNode) (finalDoc : List HtmlNode)
        (limit maxScrolls maxNoNew : Nat),
        ∀ c ∈ fetchFromDocs docs finalDoc limit maxScrolls maxNoNew,
          c.text ≠ "" ∧ pyStrip c.text ≠ "") := by
  refine ⟨fun doc limit c hc => parseDoc_mem_text hc, ?_⟩
  intro docs finalDoc limit ms mnn c hc
  unfold fetchFromDocs at hc
  exact fetchComments_pres (fun x => x.text ≠ "" ∧ pyStrip x.text ≠ "") _ _ _ _ _
    (fun _ x hx => parseDoc_mem_text hx) (fun x hx => parseDoc_mem_text hx) c hc

/-- Witness for `c7_no_blank_top_level` on a one-comment document. -/
theorem c7_no_blank_top_level_witness :
    (CommentData.mk "hello" "" "" "" 0 "" []).text ≠ ""
    ∧ pyStrip (CommentData.mk "hello" "" "" "" 0 "" []).text ≠ "" :=
  c7_no_blank_top_level.1 [.elt "div" [("data-ft", "ft top_level_post_id 1")] [.txt "hello"]] 10
    (CommentData.mk "hello" "" "" "" 0 "" [])
    (by
      rw [show (parseDoc [.elt "div" [("data-ft", "ft top_level_post_id 1")] [.txt "hello"]] 10).comments
        = [CommentData.mk "hello" "" "" "" 0 "" []] from rfl]
      exact List.mem_cons_self _ _)

/-- Counterexample to C7: a kept top-level record can carry a nested reply
record whose text is empty — the reply extraction (lines 771-777) appends
the extracted dict without any text check. -/
theorem c7_counterexample :
    ((parseDoc [.elt "div" [("data-ft", "ft top_level_post_id 1")]
        [.txt "hello", .elt "div" [("class", "reply-block")] []]] 10).comments.map
      (fun c => c.replies.map (fun r => r.text))) = [[""]]
    ∧ (parseDoc [.elt "div" [("data-ft", "ft top_level_post_id 1")]
        [.txt "hello", .elt "div" [("class", "reply-block")] []]] 10).total_count = 1 := by
  constructor
  · rfl
  · rfl

/-! ## Stagnation behaviour of the scroll loop (C3) -/

theorem mergeLoop_seen_mono (limit : Nat) :
    ∀ (cs acc : List CommentData) (seen : List String) (cnt : Nat),
      ∀ x ∈ seen, x ∈ (mergeLoop limit cs acc seen cnt).seen := by
  intro cs
  induction cs with
  | nil => intro acc seen cnt x hx; simpa [mergeLoop] using hx
  | cons a rest ih =>
    intro acc seen cnt x hx
    unfold mergeLoop
    by_cases hcond : uniqKey a ∉ seen ∧ a.text ≠ ""
    · rw [if_pos hcond]
      by_cases hlim : limit ≤ (acc ++ [a]).length
      · rw [if_pos hlim]
        exact List.mem_cons_of_mem _ hx
      · rw [if_neg hlim]
        exact ih _ _ _ x (List.mem_cons_of_mem _ hx)
    · rw [if_neg hcond]
      exact ih _ _ _ x hx

theorem mergeLoop_len_mono (limit : Nat) :
    ∀ (cs acc : List CommentData) (seen : List String) (cnt : Nat),
      acc.length ≤ (mergeLoop limit cs acc seen cnt).all.length := by
  intro cs
  induction cs with
  | nil => intro acc seen cnt; simp [mergeLoop]
  | cons a rest ih =>
    intro acc seen cnt
    unfold mergeLoop
    by_cases hcond : uniqKey a ∉ seen ∧ a.text ≠ ""
    · rw [if_pos hcond]
      by_cases hlim : limit ≤ (acc ++ [a]).length
      · rw [if_pos hlim]; simp
      · rw [if_neg hlim]
        calc acc.length ≤ (acc ++ [a]).length := by simp
          _ ≤ _ := ih _ _ _
    · rw [if_neg hcond]
      exact ih _ _ _

/-- When the merge loop ends below the limit it processed the whole batch:
every eligible record's key is seen afterwards. -/
theorem mergeLoop_keys_seen (limit : Nat) :
    ∀ (cs acc : List CommentData) (seen : List String) (cnt : Nat),
      (mergeLoop limit cs acc seen cnt).all.length < limit →
      ∀ c ∈ cs, c.text ≠ "" → uniqKey c ∈ (mergeLoop limit cs acc seen cnt).seen := by
  intro cs
  induction cs with
  | nil => intro acc seen cnt _ c hc; exact absurd hc (List.not_mem_nil c)
  | cons a rest ih =>
    intro acc seen cnt hlt c hc
    unfold mergeLoop at hlt ⊢
    by_cases hcond : uniqKey a ∉ seen ∧ a.text ≠ ""
    · rw [if_pos hcond] at hlt ⊢
      by_cases hlim : limit ≤ (acc ++ [a]).length
      · rw [if_pos hlim] at hlt
        exfalso
        dsimp only at hlt
        omega
      · rw [if_neg hlim] at hlt ⊢
        rcases List.mem_cons.mp hc with h1 | h2
        · subst h1
          intro _
          exact mergeLoop_seen_mono limit _ _ _ _ _ (List.mem_cons_self _ _)
        · exact ih _ _ _ hlt c h2
    · rw [if_neg hcond] at hlt ⊢
      rcases List.mem_cons.mp hc with h1 | h2
      · subst h1
        intro htext
        have hkey : uniqKey c ∈ seen := by
          by_contra hk
          exact hcond ⟨hk, htext⟩
        exact mergeLoop_seen_mono limit _ _ _ _ _ hkey
      · exact ih _ _ _ hlt c h2

/-- A batch whose eligible keys are all seen adds nothing. -/
theorem mergeLoop_stagnant (limit : Nat) :
    ∀ (cs acc : List CommentData) (seen : List String) (cnt : Nat),
      (∀ c ∈ cs, c.text ≠ "" → uniqKey c ∈ seen) →
      mergeLoop limit cs acc seen cnt = ⟨acc, seen, cnt⟩ := by
  intro cs
  induction cs with
  | nil => intro acc seen cnt _; rfl
  | cons a rest ih =>
    intro acc seen cnt hall
    unfold mergeLoop
    have hcond : ¬ (uniqKey a ∉ seen ∧ a.text ≠ "") := by
      intro ⟨hk, ht⟩
      exact hk (hall a (List.mem_cons_self _ _) ht)
    rw [if_neg hcond]
    exact ih _ _ _ (fun c hc => hall c (List.mem_cons_of_mem _ hc))

end Scrapper


namespace Scrapper

/-- A stagnant iteration: nothing is added and the counter increments. -/
theorem iterOnce_stagnant (limit : Nat) (P : List CommentData) (A : List CommentData)
    (S : List String) (j : Nat) (hseen : ∀ c ∈ P.take limit, c.text ≠ "" → uniqKey c ∈ S) :
    iterOnce limit ⟨A, S, j⟩ P = (⟨A, S, j + 1⟩, 0) := by
  unfold iterOnce
  rw [mergeLoop_stagnant limit (P.take limit) A S 0 hseen]
  simp

/-- Countdown of a stagnating scroll loop: from counter value `j` the loop
runs exactly `maxNoNew - j` more iterations and stops with the counter at
the threshold. -/
theorem scrollLoop_stagnant_countdown (limit maxNoNew : Nat) (P : List CommentData)
    (A : List CommentData) (S : List String)
    (hseen : ∀ c ∈ P.take limit, c.text ≠ "" → uniqKey c ∈ S)
    (hlen : A.length < limit) :
    ∀ (k i j : Nat), j < maxNoNew → maxNoNew - j ≤ k →
      scrollLoop limit maxNoNew (fun _ => P) k i ⟨A, S, j⟩ = (⟨A, S, maxNoNew⟩, maxNoNew - j) := by
  intro k
  induction k with
  | zero => intro i j hj hk; omega
  | succ k ih =>
    intro i j hj hk
    have hstep : iterOnce limit ⟨A, S, j⟩ ((fun _ : Nat => P) i) = (⟨A, S, j + 1⟩, 0) :=
      iterOnce_stagnant limit P A S j hseen
    unfold scrollLoop
    rw [hstep]
    dsimp only
    rw [if_neg (show ¬ limit ≤ A.length by omega)]
    by_cases hdone : maxNoNew ≤ j + 1
    · rw [if_pos hdone]
      have hje : j + 1 = maxNoNew := by omega
      rw [hje, show maxNoNew - j = 1 by omega]
    · rw [if_neg hdone]
      rw [ih (i + 1) (j + 1) (by omega) (by omega)]
      simp only [Prod.mk.injEq]
      exact ⟨trivial, by omega⟩

/-- C3: the stagnation counter resets on any iteration that adds at least
one unique comment and increments otherwise; on a page whose content never
changes (and whose records do not reach the limit), the loop stops after
exactly `max_no_new_comments` consecutive zero-addition iterations —
`maxNoNew + 1` iterations when the first pass added something, `maxNoNew`
when it did not — strictly before the `max_scrolls` ceiling. -/
theorem c3_stagnation_stop (P : List CommentData) (limit maxScrolls maxNoNew : Nat)
    (h1 : 1 ≤ maxNoNew) (h2 : maxNoNew + 2 ≤ maxScrolls)
    (h3 : (mergeLoop limit (P.take limit) [] [] 0).all.length < limit) :
    (∀ (st : LoopState) (parsed : List CommentData),
        (iterOnce limit st parsed).1.noNew =
          if 0 < (iterOnce limit st parsed).2 then 0 else st.noNew + 1)
    ∧ (scrollLoop limit maxNoNew (fun _ => P) maxScrolls 0 ⟨[], [], 0⟩).2 =
        maxNoNew + (if 0 < (mergeLoop limit (P.take limit) [] [] 0).cnt then 1 else 0)
    ∧ (scrollLoop limit maxNoNew (fun _ => P) maxScrolls 0 ⟨[], [], 0⟩).2 < maxScrolls
    ∧ (scrollLoop limit maxNoNew (fun _ => P) maxScrolls 0 ⟨[], [], 0⟩).1.noNew = maxNoNew := by
  have hcounter : ∀ (st : LoopState) (parsed : List CommentData),
      (iterOnce limit st parsed).1.noNew =
        if 0 < (iterOnce limit st parsed).2 then 0 else st.noNew + 1 := by
    intro st parsed
    simp [iterOnce]
  refine ⟨hcounter, ?_⟩
  rcases hms : maxScrolls with _ | k
  · omega
  have hm := rfl (a := mergeLoop limit (P.take limit) [] [] 0)
  have hseen : ∀ c ∈ P.take limit, c.text ≠ "" →
      uniqKey c ∈ (mergeLoop limit (P.take limit) [] [] 0).seen :=
    mergeLoop_keys_seen limit (P.take limit) [] [] 0 h3
  have hstep1 : iterOnce limit ⟨[], [], 0⟩ ((fun _ : Nat => P) 0) =
      (⟨(mergeLoop limit (P.take limit) [] [] 0).all,
        (mergeLoop limit (P.take limit) [] [] 0).seen,
        if 0 < (mergeLoop limit (P.take limit) [] [] 0).cnt then 0 else 1⟩,
       (mergeLoop limit (P.take limit) [] [] 0).cnt) := by
    simp [iterOnce]
  have hrun : scrollLoop limit maxNoNew (fun _ => P) (k + 1) 0 ⟨[], [], 0⟩ =
      (⟨(mergeLoop limit (P.take limit) [] [] 0).all,
        (mergeLoop limit (P.take limit) [] [] 0).seen, maxNoNew⟩,
       maxNoNew + (if 0 < (mergeLoop limit (P.take limit) [] [] 0).cnt then 1 else 0)) := by
    unfold scrollLoop
    rw [hstep1]
    dsimp only
    rw [if_neg (show ¬ limit ≤ (mergeLoop limit (P.take limit) [] [] 0).all.length by omega)]
    by_cases hcnt : 0 < (mergeLoop limit (P.take limit) [] [] 0).cnt
    · rw [if_pos hcnt]
      rw [if_neg (show ¬ maxNoNew ≤ 0 by omega)]
      rw [scrollLoop_stagnant_countdown limit maxNoNew P _ _ hseen h3 k 1 0 (by omega) (by omega)]
      simp only [Prod.mk.injEq, if_pos hcnt]
      exact ⟨trivial, by omega⟩
    · rw [if_neg hcnt]
      by_cases hdone : maxNoNew ≤ 1
      · rw [if_pos hdone]
        simp only [Prod.mk.injEq, if_neg hcnt]
        exact ⟨by simp only [LoopState.mk.injEq]; exact ⟨trivial, trivial, by omega⟩, by omega⟩
      · rw [if_neg hdone]
        rw [scrollLoop_stagnant_countdown limit maxNoNew P _ _ hseen h3 k 1 1 (by omega) (by omega)]
        simp only [Prod.mk.injEq, if_neg hcnt]
        exact ⟨trivial, by omega⟩
  rw [hrun]
  refine ⟨rfl, by dsimp only; split <;> omega, rfl⟩

end Scrapper


namespace Scrapper

/-- Witness for `c3_stagnation_stop` on a page that always yields the same
single comment: the first iteration adds it, the next 4 add nothing, and
the loop stops after 5 of the 100 allowed iterations. -/
theorem c3_stagnation_stop_witness :
    (1 ≤ 4 ∧ 4 + 2 ≤ 100
      ∧ (mergeLoop 10 ([CommentData.mk "hello" "ann" "" "" 0 "c1" []].take 10) [] [] 0).all.length < 10)
    ∧ (scrollLoop 10 4 (fun _ => [CommentData.mk "hello" "ann" "" "" 0 "c1" []]) 100 0 ⟨[], [], 0⟩).2
        = 4 + (if 0 < (mergeLoop 10 ([CommentData.mk "hello" "ann" "" "" 0 "c1" []].take 10) [] [] 0).cnt
               then 1 else 0)
    ∧ (scrollLoop 10 4 (fun _ => [CommentData.mk "hello" "ann" "" "" 0 "c1" []]) 100 0 ⟨[], [], 0⟩).2 < 100
    ∧ (scrollLoop 10 4 (fun _ => [CommentData.mk "hello" "ann" "" "" 0 "c1" []]) 100 0 ⟨[], [], 0⟩).1.noNew
        = 4 :=
  ⟨⟨by decide, by decide, by decide⟩,
    (c3_stagnation_stop [CommentData.mk "hello" "ann" "" "" 0 "c1" []] 10 100 4
      (by decide) (by decide) (by decide)).2.1,
    (c3_stagnation_stop [CommentData.mk "hello" "ann" "" "" 0 "c1" []] 10 100 4
      (by decide) (by decide) (by decide)).2.2.1,
    (c3_stagnation_stop [CommentData.mk "hello" "ann" "" "" 0 "c1" []] 10 100 4
      (by decide) (by decide) (by decide)).2.2.2⟩

end Scrapper

